import Mathlib

/-!
Verification of the playback-synchronization and loop-repeat engine of
`pitch_accent_qt.py`.  Numeric values are embedded as exact rationals; the
player is modelled through the sequences of calls the handlers issue to it.
-/

/-- VLC player states observed by the polling logic. -/
inductive VlcState where
  | playing
  | buffering
  | paused
  | stopped
  | ended
  | opening
  | err
  deriving DecidableEq, Repr

/-- States treated as actively playing by the handlers:
`state in [vlc.State.Playing, vlc.State.Buffering]`. -/
def VlcState.isActive : VlcState → Bool
  | .playing => true
  | .buffering => true
  | _ => false

/-- `max_end = self._clip_duration - self._default_selection_margin - 0.05`
with `_default_selection_margin = 0.3` (lines 227, 592, 1021, 1493). -/
def maxEnd (duration : ℚ) : ℚ := duration - 3/10 - 1/20

/-- Python `int(q)`: truncation toward zero. -/
def pyInt (q : ℚ) : ℤ := if 0 ≤ q then ⌊q⌋ else -⌊-q⌋

/-- Python float `a % b`: `a - b * floor (a / b)` (sign of the divisor). -/
def pyMod (a b : ℚ) : ℚ := a - b * ⌊a / b⌋

/-- The interpolation state owned by the position estimator:
`(_last_playback_time, _last_playback_pos)` when those attributes exist,
plus the `_expecting_seek` flag. -/
structure PlaybackClock where
  last : Option (ℚ × ℚ)
  expectingSeek : Bool
  deriving DecidableEq, Repr

/-- The polled player time in seconds, lines 1020-1025: `t = ms / 1000` when
the reading is present and nonnegative, else `0`, then clamped to
`[0, max_end]`. -/
def polledTime (duration : ℚ) (ms : Option ℤ) : ℚ :=
  let t : ℚ :=
    match ms with
    | some m => if 0 ≤ m then (m : ℚ) / 1000 else 0
    | none => 0
  max 0 (min t (maxEnd duration))

/-- The `should_update` cascade of `poll_vlc_state_and_overlay`
(lines 1037-1044): resync when `_expecting_seek` is set, or the player is
not actively playing, or the polled time is more than `0.1` s ahead of the
interpolation. -/
def shouldResync (active expecting : Bool) (t interpolated : ℚ) : Bool :=
  if expecting then true
  else if ¬ active then true
  else if t > interpolated + 1/10 then true
  else false

/-- Indicator-state update performed on each poll tick by
`poll_vlc_state_and_overlay`, lines 1019-1056.  On the first poll the pair
`(lastSampleTime, lastSamplePos)` is simply initialised (and the seek flag is
left untouched); afterwards the polled value replaces the estimate exactly
when `should_update` holds, otherwise the estimate becomes the clamped
interpolation; the flag is consumed, and `lastSampleTime` becomes `now`. -/
def pollUpdate (duration now : ℚ) (ms : Option ℤ) (state : VlcState)
    (c : PlaybackClock) : PlaybackClock :=
  let t := polledTime duration ms
  match c.last with
  | some (lastTime, lastPos) =>
      let interpolated := max 0 (min (lastPos + (now - lastTime)) (maxEnd duration))
      if shouldResync state.isActive c.expectingSeek t interpolated then
        { last := some (now, t), expectingSeek := false }
      else
        { last := some (now, interpolated), expectingSeek := false }
  | none => { last := some (now, t), expectingSeek := c.expectingSeek }

/-- The poll sequence of the specification scenario:
`(t=0, pos=0, Playing)`, `(t=0.05, pos=0.05, Playing)`,
`(t=0.10, pos=0.09, Playing)` on a 12-second clip, starting from a clock
with no previous sample. -/
def threePollClock : PlaybackClock :=
  pollUpdate 12 (1/10) (some 90) VlcState.playing
    (pollUpdate 12 (1/20) (some 50) VlcState.playing
      (pollUpdate 12 0 (some 0) VlcState.playing
        { last := none, expectingSeek := false }))

/-- `delay_val = int(self.loop_delay_input.text())`, coerced to `0` on a parse
failure or when outside `[0, 800]` (lines 982-987 and 1124-1130).  The
argument is the result of the Python `int()` parse of the text box:
`none` when `int()` raises, `some v` when it returns `v`. -/
def parseLoopDelay (reading : Option ℤ) : ℤ :=
  match reading with
  | some v => if v < 0 ∨ 800 < v then 0 else v
  | none => 0

/-- Calls issued to the player / timers, in program order, by the handlers.
`setExpectingSeek` stands for `self._expecting_seek = True` together with the
grace timestamp, `resetClock` for the direct rewrite of the interpolation
state in the pause branch. -/
inductive PlayerAction where
  | setExpectingSeek
  | setTime (ms : ℤ)
  | play
  | pause
  | pollStart
  | pollStop
  | startDelayTimer (ms : ℤ)
  | cancelDelayTimer
  | scheduleSettle (ms : ℤ)
  | resetClock
  deriving DecidableEq, Repr

/-- Player-facing actions of `toggle_play_pause` (lines 931-966): cancel any
pending loop-delay timer, then either pause in place, or set the grace flag,
seek (to the loop start, or nudged forward by 10 ms), and play. -/
def togglePlayPauseActions (state : VlcState) (currentTime loopStart loopEnd : ℚ)
    (hasPendingTimer : Bool) : List PlayerAction :=
  (if hasPendingTimer then [.cancelDelayTimer] else []) ++
    (if state.isActive then
      [.pause, .pollStop, .resetClock]
    else if currentTime < loopStart ∨ loopEnd ≤ currentTime then
      [.setExpectingSeek, .setTime (pyInt (loopStart * 1000)), .play, .pollStart]
    else
      [.setExpectingSeek, .setTime (pyInt ((currentTime + 1/100) * 1000)), .play,
        .pollStart])

/-- Player-facing actions of the loop-boundary branch of
`poll_vlc_state_and_overlay` (lines 981-1011), taken when the polled time has
reached `_loop_end`; `delayReading` is the `int()` parse of the delay box. -/
def pollBoundaryActions (isLooping : Bool) (delayReading : Option ℤ) (loopStart : ℚ)
    (hasPendingTimer : Bool) : List PlayerAction :=
  let d := parseLoopDelay delayReading
  if isLooping = true ∧ 0 < d then
    [.pause, .pollStop] ++ (if hasPendingTimer then [.cancelDelayTimer] else []) ++
      [.startDelayTimer d]
  else
    [.setExpectingSeek, .setTime (pyInt (loopStart * 1000))] ++
      (if isLooping then [] else [.pause, .pollStop])

/-- Player-facing actions of the deferred body of `on_vlc_end_reached`
(lines 1122-1145). -/
def endReachedActions (isLooping : Bool) (delayReading : Option ℤ) (startTime : ℚ) :
    List PlayerAction :=
  let d := parseLoopDelay delayReading
  if isLooping = true ∧ 0 < d then
    [.pause, .pollStop, .startDelayTimer d]
  else
    [.setTime (pyInt (startTime * 1000))] ++
      (if isLooping then [.play, .pollStart] else [.pause])

/-- Player-facing actions of `stop_native` (lines 1079-1108). -/
def stopNativeActions (loopStart : ℚ) (hasPendingTimer : Bool) : List PlayerAction :=
  (if hasPendingTimer then [.cancelDelayTimer] else []) ++
    [.pause, .setExpectingSeek, .setTime (pyInt (loopStart * 1000)), .pollStop,
      .resetClock]

/-- Player-facing actions of `_restart_loop` (lines 1148-1153): grace flag,
seek to the loop start, then a 150 ms settle period before resuming. -/
def restartLoopActions (startTime : ℚ) : List PlayerAction :=
  [.setExpectingSeek, .setTime (pyInt (startTime * 1000)), .scheduleSettle 150]

/-- `true` iff every `setTime` in the list is strictly preceded by a
`setExpectingSeek`; the accumulator records whether the flag was already
set. -/
def flagBeforeSeek : List PlayerAction → Bool → Bool
  | [], _ => true
  | .setExpectingSeek :: rest, _ => flagBeforeSeek rest true
  | .setTime _ :: rest, seen => seen && flagBeforeSeek rest seen
  | _ :: rest, seen => flagBeforeSeek rest seen

/-- The timer-liveness state of the loop scheduler: the tracked
`_loop_delay_timer` (if pending) plus the untracked `QTimer.singleShot`
restarts scheduled by the end-of-media handler, with a counter providing
fresh timer identities, the `_is_looping` flag, and the loop start used by
restarts. -/
structure TimerSys where
  isLooping : Bool
  tracked : Option ℕ
  shots : List ℕ
  counter : ℕ
  loopStart : ℚ
  deriving DecidableEq, Repr

/-- Events acting on the timer state. -/
inductive TimerEvent where
  | schedulePollDelay (d : ℤ)
  | scheduleEndDelay
  | togglePlayPause
  | stopNative
  | setLooping (b : Bool)
  | fire (id : ℕ)
  deriving DecidableEq, Repr

/-- One step of the timer system, returning the new state and the
player-facing actions emitted by the step.

* `schedulePollDelay` (poll handler, lines 988-1002): pause, stop polling,
  stop any previously pending tracked timer, start a fresh tracked one-shot.
* `scheduleEndDelay` (end-of-media handler, lines 1131-1134): pause, stop
  polling, schedule an untracked `QTimer.singleShot`; nothing records it.
* `togglePlayPause` / `stopNative` (lines 933-936, 1081-1084): stop and
  discard the tracked timer.
* `setLooping` (line 1569): only the flag changes; no timer is touched.
* `fire id`: a tracked timer runs `restart_if_still_looping` (clears the
  slot, restarts only when `_is_looping`); an untracked one-shot runs
  `_restart_loop` unconditionally; a stopped timer never fires (Qt
  guarantee). -/
def timerStep (s : TimerSys) (e : TimerEvent) : TimerSys × List PlayerAction :=
  match e with
  | .schedulePollDelay d =>
      ({ s with tracked := some s.counter, counter := s.counter + 1 },
        [.pause, .pollStop] ++
          (if s.tracked.isSome then [.cancelDelayTimer] else []) ++
          [.startDelayTimer d])
  | .scheduleEndDelay =>
      ({ s with shots := s.shots ++ [s.counter], counter := s.counter + 1 },
        [.pause, .pollStop])
  | .togglePlayPause =>
      ({ s with tracked := none },
        if s.tracked.isSome then [.cancelDelayTimer] else [])
  | .stopNative =>
      ({ s with tracked := none },
        if s.tracked.isSome then [.cancelDelayTimer] else [])
  | .setLooping b => ({ s with isLooping := b }, [])
  | .fire id =>
      if s.tracked = some id then
        ({ s with tracked := none },
          if s.isLooping then restartLoopActions s.loopStart else [])
      else if id ∈ s.shots then
        ({ s with shots := s.shots.erase id }, restartLoopActions s.loopStart)
      else (s, [])

/-- Run a sequence of timer events, concatenating the emitted actions. -/
def runTimers (s : TimerSys) : List TimerEvent → TimerSys × List PlayerAction
  | [] => (s, [])
  | e :: es =>
      let r := timerStep s e
      let r2 := runTimers r.1 es
      (r2.1, r.2 ++ r2.2)

/-- Initial timer state used by the counterexample: looping enabled, no
pending timer, loop start `0`. -/
def timerInit : TimerSys :=
  { isLooping := true, tracked := none, shots := [], counter := 0, loopStart := 0 }

/-- The loop selection `(_loop_start, _loop_end)` once a clip is loaded. -/
structure LoopSelection where
  start : ℚ
  stop : ℚ
  deriving DecidableEq, Repr

/-- `clear_selection` (lines 1490-1513): reset to `[0, max_end]`. -/
def clearSelection (duration : ℚ) (_s : LoopSelection) : LoopSelection :=
  { start := 0, stop := maxEnd duration }

/-- `on_select` (lines 586-598): snap `xmin` below `0.1` to `0`, cap `xmax`
at `max_end`, then store `(max 0 xmin, min max_end xmax)`. -/
def onSelect (duration xmin xmax : ℚ) : LoopSelection :=
  let xmin' := if xmin < 1/10 then 0 else xmin
  let me := maxEnd duration
  let xmax' := if xmax > me then me else xmax
  { start := max 0 xmin', stop := min me xmax' }

/-- `_on_pg_region_changed` (lines 1725-1736): clamp both region endpoints
into `[0, max_end]` and store them. -/
def pgRegionChanged (duration r0 r1 : ℚ) : LoopSelection :=
  let me := maxEnd duration
  { start := max 0 (min r0 me), stop := max 0 (min r1 me) }

/-- Frequencies of the voiced samples: `native_pitch[native_voiced]`. -/
def voicedVals (pitch : List ℚ) (voiced : List Bool) : List ℚ :=
  (pitch.zip voiced).filterMap (fun pv => if pv.2 = true then some pv.1 else none)

/-- `reset_y_axis` (lines 921-929).  With no analysis loaded the default is
`500`; with analysis loaded the scale is `ceil(max voiced pitch / 50) * 50`
clamped to `[1, 1000]` - and `np.max` of an empty selection raises, modelled
as `none`. -/
def resetYAxis (analysis : Option (List ℚ × List Bool)) : Option ℤ :=
  match analysis with
  | none => some 500
  | some (pitch, voiced) =>
      match (voicedVals pitch voiced).max? with
      | none => none
      | some m => some (max 1 (min 1000 (⌈m / 50⌉ * 50)))

/-- `abs_rec > 1e-4`: a sample exceeds the recording silence threshold. -/
def exceedsThreshold (x : ℚ) : Bool := decide ((1 : ℚ)/10000 < |x|)

/-- The silence trim of `_record_thread` (lines 1204-1212): find the indices
whose absolute amplitude exceeds `1e-4` (the `np.where` result); if any
exist, keep everything up to and including the last one, otherwise keep the
buffer untouched. -/
def trimRecording (rec : List ℚ) : List ℚ :=
  match ((List.range rec.length).filter
      (fun i => exceedsThreshold (rec.getD i 0))).getLast? with
  | some last => rec.take (last + 1)
  | none => rec

/-- `np.int16(np.clip(trimmed, -1, 1) * 32767)` applied samplewise
(line 1214). -/
def toInt16 (x : ℚ) : ℤ := pyInt (max (-1) (min 1 x) * 32767)

/-- The persisted take: the trimmed buffer converted to int16 (lines
1204-1215). -/
def persistedRecording (rec : List ℚ) : List ℤ := (trimRecording rec).map toInt16

/-- The playback trim used for the user take (lines 1363-1367), on int16
samples with threshold `10`. -/
def trimUserTake (data : List ℤ) : List ℤ :=
  match ((List.range data.length).filter
      (fun i => decide (10 < |data.getD i 0|))).getLast? with
  | some last => data.take (last + 1)
  | none => data

/-- The looped-take duration computed by `start_user_loop_playback_with_timer`
(lines 1359-1370): trimmed length over the sample rate, or `0` when reading
the take fails. -/
def userLoopDuration (readResult : Option (ℕ × List ℤ)) : ℚ :=
  match readResult with
  | none => 0
  | some (rate, data) => ((trimUserTake data).length : ℚ) / (rate : ℚ)

/-- The indicator position of the looped-playback timer callback
(line 1381): `(now - start) % duration` when `duration > 0`, else `0`. -/
def userLoopIndicatorPos (now startTime duration : ℚ) : ℚ :=
  if 0 < duration then pyMod (now - startTime) duration else 0

/-- The segmentation loop of `redraw_native_waveform` (lines 618-630),
expressed as the same index-driven state machine: `i` is the index of the
head of the remaining list, the optional `s` the start of the currently open
run; a run closes at the first unvoiced index, or at the end of the array
when the final sample is voiced, and is emitted only when longer than one
sample. -/
def segScan : List Bool → ℕ → Option ℕ → List (ℕ × ℕ)
  | [], _, _ => []
  | [_], _, none => []
  | [b], i, some s =>
      if b then (if 1 < i + 1 - s then [(s, i + 1)] else [])
      else (if 1 < i - s then [(s, i)] else [])
  | b :: c :: rest, i, none =>
      if b then segScan (c :: rest) (i + 1) (some i)
      else segScan (c :: rest) (i + 1) none
  | b :: c :: rest, i, some s =>
      if b then segScan (c :: rest) (i + 1) (some s)
      else (if 1 < i - s then [(s, i)] else []) ++ segScan (c :: rest) (i + 1) none

/-- The voiced segments emitted for rendering. -/
def nativeSegments (voiced : List Bool) : List (ℕ × ℕ) := segScan voiced 0 none

/-- Modelled from the spec: the maximal runs of consecutive `true` samples of
a voiced array, as half-open index ranges in left-to-right order (all runs,
before the length filter).  `i` is the index of the head of the remaining
list and `s` the start of the currently open run. -/
def specRunsAux : List Bool → ℕ → Option ℕ → List (ℕ × ℕ)
  | [], _, none => []
  | [], n, some s => [(s, n)]
  | b :: rest, i, none =>
      if b then specRunsAux rest (i + 1) (some i) else specRunsAux rest (i + 1) none
  | b :: rest, i, some s =>
      if b then specRunsAux rest (i + 1) (some s)
      else (s, i) :: specRunsAux rest (i + 1) none

/-- Modelled from the spec: all maximal voiced runs of the array. -/
def specMaximalRuns (voiced : List Bool) : List (ℕ × ℕ) := specRunsAux voiced 0 none

/-! ### Shared helper lemmas -/

/-- Extending the range beyond the last index satisfying `P` does not change
the filtered list. -/
theorem filter_range_congr_ub (P : ℕ → Bool) (m : ℕ) :
    ∀ n, m ≤ n → (∀ i, m ≤ i → i < n → P i = false) →
      (List.range n).filter P = (List.range m).filter P := by
  intro n hmn
  induction n, hmn using Nat.le_induction with
  | base => intro _; rfl
  | succ n hmn ih =>
      intro hub
      have hn : P n = false := hub n hmn (Nat.lt_succ_self n)
      rw [List.range_succ, List.filter_append,
        ih (fun i h1 h2 => hub i h1 (Nat.lt_succ_of_lt h2))]
      simp [List.filter_cons, hn]

/-- The last index of `range n` satisfying `P` when `m` satisfies `P` and no
larger index below `n` does. -/
theorem filter_range_getLast (P : ℕ → Bool) (m n : ℕ) (hm : P m = true)
    (hmn : m < n) (hub : ∀ i, m < i → i < n → P i = false) :
    ((List.range n).filter P).getLast? = some m := by
  rw [filter_range_congr_ub P (m + 1) n hmn (fun i h1 h2 => hub i h1 h2)]
  rw [List.range_succ, List.filter_append]
  simp only [List.filter_cons, hm, List.filter_nil, if_true]
  exact List.getLast?_concat _

/-- `pyMod` as a scaled fractional part. -/
theorem pyMod_eq_fract (a b : ℚ) (hb : b ≠ 0) : pyMod a b = b * Int.fract (a / b) := by
  unfold pyMod Int.fract
  rw [mul_sub, mul_comm b (a / b), div_mul_cancel₀ a hb]

/-- Python modulo with a positive divisor is nonnegative. -/
theorem pyMod_nonneg (a b : ℚ) (hb : 0 < b) : 0 ≤ pyMod a b := by
  rw [pyMod_eq_fract a b hb.ne']
  exact mul_nonneg hb.le (Int.fract_nonneg _)

/-- Python modulo with a positive divisor is smaller than the divisor. -/
theorem pyMod_lt (a b : ℚ) (hb : 0 < b) : pyMod a b < b := by
  rw [pyMod_eq_fract a b hb.ne']
  calc b * Int.fract (a / b) < b * 1 :=
        mul_lt_mul_of_pos_left (Int.fract_lt_one _) hb
    _ = b := mul_one b

/-! ### C9 -/

/-- C9: for every loaded clip state, calling `clear_selection` twice yields
the same stored bounds as calling it once, both equal to `[0, maxEnd]`. -/
theorem c9_clear_selection_idempotent :
    ∀ (duration : ℚ) (s : LoopSelection),
      clearSelection duration (clearSelection duration s) = clearSelection duration s
      ∧ clearSelection duration s = { start := 0, stop := maxEnd duration } :=
  fun _ _ => ⟨rfl, rfl⟩

/-! ### C10 -/

/-- C10: the looped-take indicator position is total: it equals
`(now - start) % duration` and lies in `[0, duration)` when `duration > 0`,
and equals `0` when `duration` is not positive; a failed read of the take
yields duration `0`.  The modulo is therefore never taken with a zero
divisor. -/
theorem c10_user_loop_indicator_total :
    (∀ now startTime duration : ℚ, 0 < duration →
        userLoopIndicatorPos now startTime duration = pyMod (now - startTime) duration
        ∧ 0 ≤ userLoopIndicatorPos now startTime duration
        ∧ userLoopIndicatorPos now startTime duration < duration)
    ∧ (∀ now startTime duration : ℚ, ¬ 0 < duration →
        userLoopIndicatorPos now startTime duration = 0)
    ∧ userLoopDuration none = 0 := by
  refine ⟨?_, ?_, rfl⟩
  · intro now st d hd
    have he : userLoopIndicatorPos now st d = pyMod (now - st) d := by
      simp [userLoopIndicatorPos, hd]
    exact ⟨he, he ▸ pyMod_nonneg _ _ hd, he ▸ pyMod_lt _ _ hd⟩
  · intro now st d hd
    simp [userLoopIndicatorPos, hd]

/-- C10 witness: the indicator position at `now = 3`, `start = 1`,
`duration = 2` exists and lies in `[0, 2)`. -/
theorem c10_witness :
    0 ≤ userLoopIndicatorPos 3 1 2 ∧ userLoopIndicatorPos 3 1 2 < 2 := by
  have h := c10_user_loop_indicator_total.1 3 1 2 (by norm_num)
  exact ⟨h.2.1, h.2.2⟩

/-! ### C5 -/

/-- C5: on recording completion the persisted buffer is the capture truncated
after the last sample whose absolute amplitude exceeds the threshold
(length = that index plus one); with no such sample the buffer is kept
untouched; in the 10 s / 44.1 kHz scenario with the threshold exceeded
exactly on `[1000, 20000)` the persisted length is exactly `20000`. -/
theorem c5_recording_trim :
    ∀ rec : List ℚ,
      ((∀ i, i < rec.length → exceedsThreshold (rec.getD i 0) = false) →
          trimRecording rec = rec)
      ∧ (∀ m, m < rec.length → exceedsThreshold (rec.getD m 0) = true →
          (∀ i, i < rec.length → m < i → exceedsThreshold (rec.getD i 0) = false) →
          trimRecording rec = rec.take (m + 1)
            ∧ (persistedRecording rec).length = m + 1)
      ∧ (rec.length = 441000 →
          (∀ i, i < rec.length →
              (exceedsThreshold (rec.getD i 0) = true ↔ (1000 ≤ i ∧ i < 20000))) →
          (persistedRecording rec).length = 20000) := by
  intro rec
  have h2 : ∀ m, m < rec.length → exceedsThreshold (rec.getD m 0) = true →
      (∀ i, i < rec.length → m < i → exceedsThreshold (rec.getD i 0) = false) →
      trimRecording rec = rec.take (m + 1)
        ∧ (persistedRecording rec).length = m + 1 := by
    intro m hm hPm hub
    have hL : ((List.range rec.length).filter
        (fun i => exceedsThreshold (rec.getD i 0))).getLast? = some m :=
      filter_range_getLast _ m rec.length hPm hm (fun i h1 h2 => hub i h2 h1)
    have htrim : trimRecording rec = rec.take (m + 1) := by
      unfold trimRecording
      rw [hL]
    refine ⟨htrim, ?_⟩
    rw [persistedRecording, htrim, List.length_map, List.length_take]
    omega
  refine ⟨?_, h2, ?_⟩
  · intro hnone
    have hfil : (List.range rec.length).filter
        (fun i => exceedsThreshold (rec.getD i 0)) = [] := by
      rw [List.filter_eq_nil_iff]
      intro a ha
      simp only [Bool.not_eq_true]
      exact hnone a (List.mem_range.mp ha)
    unfold trimRecording
    rw [hfil]
    rfl
  · intro hlen hiff
    have hPm : exceedsThreshold (rec.getD 19999 0) = true :=
      (hiff 19999 (by omega)).mpr ⟨by omega, by omega⟩
    have hub : ∀ i, i < rec.length → 19999 < i →
        exceedsThreshold (rec.getD i 0) = false := by
      intro i hi hmi
      cases hE : exceedsThreshold (rec.getD i 0) with
      | false => rfl
      | true => exact absurd ((hiff i hi).mp hE).2 (by omega)
    have := (h2 19999 (by omega) hPm hub).2
    omega

/-- C5 witness: the trim applied to the two-sample buffer `[1, 0]` keeps
exactly the first sample. -/
theorem c5_witness :
    trimRecording [1, 0] = [1] ∧ (persistedRecording [1, 0]).length = 1 := by
  have hPm : exceedsThreshold (([1, 0] : List ℚ).getD 0 0) = true := by
    simp only [List.getD, exceedsThreshold, decide_eq_true_eq]
    norm_num
  have hub : ∀ i, i < ([1, 0] : List ℚ).length → 0 < i →
      exceedsThreshold (([1, 0] : List ℚ).getD i 0) = false := by
    intro i hi h0
    have hi2 : i < 2 := by simpa using hi
    have hi1 : i = 1 := by omega
    subst hi1
    simp only [List.getD, exceedsThreshold, decide_eq_false_iff_not]
    norm_num
  have h := (c5_recording_trim [1, 0]).2.1 0 (by norm_num) hPm hub
  exact ⟨h.1, h.2⟩

/-! ### C4 -/

/-- C4: a loop-delay input that fails to parse or parses outside `[0, 800]`
is coerced to `0`, so both the poll-boundary branch and the end-of-media
branch behave exactly as with delay `0` (immediate seek to loop start, no
delay timer); in particular the input `"900"` (parsed by `int()` to `900`)
is coerced to `0`. -/
theorem c4_loop_delay_coercion :
    ∀ (reading : Option ℤ) (isLooping pend : Bool) (loopStart : ℚ),
      (∀ v : ℤ, reading = some v → v < 0 ∨ 800 < v) →
      parseLoopDelay reading = 0
        ∧ pollBoundaryActions isLooping reading loopStart pend =
            pollBoundaryActions isLooping (some 0) loopStart pend
        ∧ endReachedActions isLooping reading loopStart =
            endReachedActions isLooping (some 0) loopStart
        ∧ parseLoopDelay (some 900) = 0 := by
  intro reading il pend ls H
  have h0 : parseLoopDelay (some 0) = 0 := by decide
  have ht : parseLoopDelay reading = 0 := by
    unfold parseLoopDelay
    cases h : reading with
    | none => rfl
    | some v => simp [H v h]
  refine ⟨ht, ?_, ?_, by decide⟩
  · unfold pollBoundaryActions
    rw [ht, h0]
  · unfold endReachedActions
    rw [ht, h0]

/-- C4 witness: reading `900` (the parse of input `"900"`) is coerced to `0`
and the poll-boundary branch behaves as with delay `0`. -/
theorem c4_witness :
    parseLoopDelay (some 900) = 0
    ∧ pollBoundaryActions true (some 900) 0 false =
        pollBoundaryActions true (some 0) 0 false := by
  have h := c4_loop_delay_coercion (some 900) true false 0
    (fun v hv => by
      have hv9 : (900 : ℤ) = v := Option.some.inj hv
      omega)
  exact ⟨h.1, h.2.1⟩

/-! ### C1 -/

/-- C1: on each poll after the first, the estimator resyncs to the polled
time exactly when the expecting-seek flag is set (and the flag is always
cleared), or the player is not actively playing, or the polled time exceeds
the clamped interpolation `lastSamplePos + (now - lastSampleTime)` by more
than `0.1` s; otherwise the position becomes the clamped interpolation, and
`lastSampleTime` becomes `now` in both cases.  For the poll sequence
`(0, 0, Playing)`, `(0.05, 0.05, Playing)`, `(0.10, 0.09, Playing)` the
estimate after the third poll is `0.10`. -/
theorem c1_poll_resync_rule :
    (∀ (active expecting : Bool) (t interp : ℚ),
      shouldResync active expecting t interp =
        (expecting || !active || decide (t > interp + 1/10)))
    ∧ (∀ (duration now lastTime lastPos : ℚ) (ms : Option ℤ) (state : VlcState)
        (e : Bool),
      pollUpdate duration now ms state
          { last := some (lastTime, lastPos), expectingSeek := e } =
        { last := some (now,
            if shouldResync state.isActive e (polledTime duration ms)
                (max 0 (min (lastPos + (now - lastTime)) (maxEnd duration))) = true
            then polledTime duration ms
            else max 0 (min (lastPos + (now - lastTime)) (maxEnd duration))),
          expectingSeek := false })
    ∧ threePollClock.last = some (1/10, 1/10) := by
  refine ⟨?_, ?_, ?_⟩
  · intro a e t interp
    cases e with
    | true => simp [shouldResync]
    | false =>
        cases a with
        | false => simp [shouldResync]
        | true =>
            by_cases hT : t > interp + 1/10
            · simp [shouldResync, hT]
            · simp [shouldResync, hT]
  · intro d now lt lp ms st e
    by_cases h : shouldResync st.isActive e (polledTime d ms)
        (max 0 (min (lp + (now - lt)) (maxEnd d))) = true
    · simp [pollUpdate, h]
    · simp [pollUpdate, h]
  · have e1 : polledTime 12 (some 0) = 0 := by
      norm_num [polledTime, maxEnd, min_def, max_def]
    have e2 : polledTime 12 (some 50) = 1/20 := by
      norm_num [polledTime, maxEnd, min_def, max_def]
    have e3 : polledTime 12 (some 90) = 9/100 := by
      norm_num [polledTime, maxEnd, min_def, max_def]
    have s1 : pollUpdate 12 0 (some 0) VlcState.playing
        { last := none, expectingSeek := false } =
        { last := some (0, 0), expectingSeek := false } := by
      simp [pollUpdate, e1]
    have s2 : pollUpdate 12 (1/20) (some 50) VlcState.playing
        { last := some (0, 0), expectingSeek := false } =
        { last := some (1/20, 1/20), expectingSeek := false } := by
      have hi : max 0 (min ((0 : ℚ) + (1/20 - 0)) (maxEnd 12)) = 1/20 := by
        norm_num [maxEnd, min_def, max_def]
      have hr : shouldResync VlcState.playing.isActive false (polledTime 12 (some 50))
          (max 0 (min ((0 : ℚ) + (1/20 - 0)) (maxEnd 12))) = false := by
        rw [e2, hi]
        norm_num [shouldResync, VlcState.isActive]
      simp only [pollUpdate, hr]
      rw [hi]
      simp
    have s3 : pollUpdate 12 (1/10) (some 90) VlcState.playing
        { last := some (1/20, 1/20), expectingSeek := false } =
        { last := some (1/10, 1/10), expectingSeek := false } := by
      have hi : max 0 (min ((1/20 : ℚ) + (1/10 - 1/20)) (maxEnd 12)) = 1/10 := by
        norm_num [maxEnd, min_def, max_def]
      have hr : shouldResync VlcState.playing.isActive false (polledTime 12 (some 90))
          (max 0 (min ((1/20 : ℚ) + (1/10 - 1/20)) (maxEnd 12))) = false := by
        rw [e3, hi]
        norm_num [shouldResync, VlcState.isActive]
      simp only [pollUpdate, hr]
      rw [hi]
      simp
    rw [threePollClock, s1, s2, s3]

/-! ### C2 -/

/-- C2 counterexample: the immediate-seek branch of the end-of-media handler
(looping enabled, delay `0`) issues its `set_time` without first setting the
expecting-seek flag, refuting the claim that every listed seek path sets the
grace flag strictly before the seek. -/
theorem c2_counterexample :
    flagBeforeSeek (endReachedActions true (some 0) 0) false = false := rfl

/-- C2 amended: `toggle_play_pause` (both resume branches), the immediate
loop-boundary seek of the poll handler, `stop_native`, and `_restart_loop`
all set the expecting-seek flag strictly before their `set_time`; the
end-of-media handler satisfies this only when it takes the delayed-restart
branch (which issues no seek itself), i.e. exactly when looping is enabled
and the parsed delay is positive - its immediate branch issues `set_time`
with the flag unset. -/
theorem c2_amended_flag_before_seek :
    (∀ (state : VlcState) (ct ls le : ℚ) (pend : Bool),
        flagBeforeSeek (togglePlayPauseActions state ct ls le pend) false = true)
    ∧ (∀ (il pend : Bool) (reading : Option ℤ) (ls : ℚ),
        flagBeforeSeek (pollBoundaryActions il reading ls pend) false = true)
    ∧ (∀ (ls : ℚ) (pend : Bool),
        flagBeforeSeek (stopNativeActions ls pend) false = true)
    ∧ (∀ st : ℚ, flagBeforeSeek (restartLoopActions st) false = true)
    ∧ (∀ (il : Bool) (reading : Option ℤ) (st : ℚ),
        flagBeforeSeek (endReachedActions il reading st) false =
          (il && decide (0 < parseLoopDelay reading))) := by
  refine ⟨?_, ?_, ?_, ?_, ?_⟩
  · intro st ct ls le pend
    cases pend <;> cases hA : st.isActive <;>
      by_cases hc : ct < ls ∨ le ≤ ct <;>
        simp [togglePlayPauseActions, flagBeforeSeek, hA, hc]
  · intro il pend reading ls
    cases il <;> cases pend <;>
      by_cases hd : 0 < parseLoopDelay reading <;>
        simp [pollBoundaryActions, flagBeforeSeek, hd]
  · intro ls pend
    cases pend <;> simp [stopNativeActions, flagBeforeSeek]
  · intro st
    simp [restartLoopActions, flagBeforeSeek]
  · intro il reading st
    cases il <;>
      by_cases hd : 0 < parseLoopDelay reading <;>
        simp [endReachedActions, flagBeforeSeek, hd]

/-! ### C6 -/

/-- C6 counterexample: a delayed restart scheduled by the end-of-media
handler is an untracked one-shot; a play/pause command arriving before the
delay elapses does not cancel it, and when it fires its callback still
performs the seek (grace flag, `set_time`, settle period), refuting the
claim for that scheduling path. -/
theorem c6_counterexample :
    (runTimers timerInit
        [TimerEvent.scheduleEndDelay, TimerEvent.togglePlayPause,
          TimerEvent.fire 0]).2 =
      [PlayerAction.pause, PlayerAction.pollStop, PlayerAction.setExpectingSeek,
        PlayerAction.setTime (pyInt (0 * 1000)), PlayerAction.scheduleSettle 150] := rfl

/-- Once a timer identity is dead (not the tracked timer, not a pending
one-shot, and older than the counter), it stays dead across any further
events. -/
theorem timer_dead_stable :
    ∀ (es : List TimerEvent) (s : TimerSys) (id : ℕ),
      id < s.counter → s.tracked ≠ some id → id ∉ s.shots →
      id < (runTimers s es).1.counter ∧ (runTimers s es).1.tracked ≠ some id
        ∧ id ∉ (runTimers s es).1.shots := by
  intro es
  induction es with
  | nil => intro s id h1 h2 h3; exact ⟨h1, h2, h3⟩
  | cons e es ih =>
      intro s id h1 h2 h3
      have hstep : id < (timerStep s e).1.counter
          ∧ (timerStep s e).1.tracked ≠ some id
          ∧ id ∉ (timerStep s e).1.shots := by
        cases e with
        | schedulePollDelay d =>
            refine ⟨by simp [timerStep]; omega, ?_, by simpa [timerStep] using h3⟩
            simp only [timerStep]
            intro hEq
            exact absurd (Option.some.inj hEq) (by omega)
        | scheduleEndDelay =>
            refine ⟨by simp [timerStep]; omega, by simpa [timerStep] using h2, ?_⟩
            simp only [timerStep, List.mem_append, List.mem_singleton]
            rintro (h | h)
            · exact h3 h
            · omega
        | togglePlayPause => exact ⟨h1, by simp [timerStep], h3⟩
        | stopNative => exact ⟨h1, by simp [timerStep], h3⟩
        | setLooping b => exact ⟨h1, h2, h3⟩
        | fire j =>
            by_cases hj : s.tracked = some j
            · refine ⟨by simp [timerStep, hj]; exact h1, by simp [timerStep, hj], ?_⟩
              simpa [timerStep, hj] using h3
            · by_cases hj2 : j ∈ s.shots
              · refine ⟨by simp [timerStep, hj, hj2]; exact h1,
                  by simpa [timerStep, hj, hj2] using h2, ?_⟩
                simp only [timerStep, hj, hj2, if_false, if_true]
                intro hmem
                exact h3 (List.mem_of_mem_erase hmem)
              · exact ⟨by simpa [timerStep, hj, hj2] using h1,
                  by simpa [timerStep, hj, hj2] using h2,
                  by simpa [timerStep, hj, hj2] using h3⟩
      have hrun := ih (timerStep s e).1 id hstep.1 hstep.2.1 hstep.2.2
      simpa [runTimers] using hrun

/-- C6 amended: a play/pause command or the stop button stops and discards
the tracked poll-path delay timer; a discarded or superseded tracked timer
identity never fires again (after any further event sequence, firing it
emits no player actions and leaves the state unchanged), and a tracked timer
firing after looping was toggled off performs no seek or resume either.  The
end-of-media path, by contrast, schedules its delayed restart as an
untracked one-shot that these cancellations do not affect (see the
counterexample). -/
theorem c6_amended_timer_cancellation :
    (∀ s : TimerSys, (timerStep s TimerEvent.togglePlayPause).1.tracked = none
        ∧ (timerStep s TimerEvent.stopNative).1.tracked = none)
    ∧ (∀ (s : TimerSys) (id : ℕ), s.tracked = some id → s.isLooping = false →
        (timerStep s (TimerEvent.fire id)).2 = [])
    ∧ (∀ (s : TimerSys) (id : ℕ) (es : List TimerEvent),
        id < s.counter → s.tracked ≠ some id → id ∉ s.shots →
        timerStep (runTimers s es).1 (TimerEvent.fire id) = ((runTimers s es).1, [])) := by
  refine ⟨fun s => ⟨rfl, rfl⟩, ?_, ?_⟩
  · intro s id htr hloop
    simp [timerStep, htr, hloop]
  · intro s id es h1 h2 h3
    have hdead := timer_dead_stable es s id h1 h2 h3
    simp [timerStep, hdead.2.1, hdead.2.2]

/-- C6 witness: applying the stability part to a concrete dead identity. -/
theorem c6_witness :
    timerStep (runTimers
        { isLooping := true, tracked := none, shots := [], counter := 1, loopStart := 0 }
        [TimerEvent.scheduleEndDelay, TimerEvent.schedulePollDelay 100,
          TimerEvent.fire 7]).1 (TimerEvent.fire 0) =
      ((runTimers
        { isLooping := true, tracked := none, shots := [], counter := 1, loopStart := 0 }
        [TimerEvent.scheduleEndDelay, TimerEvent.schedulePollDelay 100,
          TimerEvent.fire 7]).1, []) :=
  c6_amended_timer_cancellation.2.2
    { isLooping := true, tracked := none, shots := [], counter := 1, loopStart := 0 }
    0
    [TimerEvent.scheduleEndDelay, TimerEvent.schedulePollDelay 100, TimerEvent.fire 7]
    (by norm_num) (by simp) (by simp)

/-! ### C7 -/

/-- C7 counterexample: `on_select` with a requested start beyond `max_end`
(duration 12, request `[15, 20]`) stores start `15` and end `11.65`, so the
start is not clamped to `[0, maxEnd]` and the stored pair violates
`start ≤ end`. -/
theorem c7_counterexample :
    onSelect 12 15 20 = { start := 15, stop := 233/20 }
    ∧ ¬ ((onSelect 12 15 20).start ≤ (onSelect 12 15 20).stop) := by
  constructor
  · norm_num [onSelect, maxEnd, min_def, max_def]
  · norm_num [onSelect, maxEnd, min_def, max_def]

/-- C7 amended: `maxEnd = duration - 0.35`; `on_select` snaps a start below
`0.1` s to `0`, clamps the start only from below by `0` (a start above
`maxEnd` is stored as is, possibly past the stored end), and clamps the end
from above to `maxEnd`; the pyqtgraph region edit clamps both endpoints into
`[0, maxEnd]` and preserves their order, but does not snap.  The scenario
edits hold: duration `12` gives `maxEnd = 11.65`, `setRegion(-1, 20)` stores
`[0, 11.65]`, and `setRegion(0.05, 5)` stores `[0, 5]`. -/
theorem c7_amended_region_edits :
    (∀ d : ℚ, maxEnd d = d - 7/20)
    ∧ (∀ d a b : ℚ, a < 1/10 → (onSelect d a b).start = 0)
    ∧ (∀ d a b : ℚ, ¬ a < 1/10 → (onSelect d a b).start = max 0 a)
    ∧ (∀ d a b : ℚ, (onSelect d a b).stop = min (maxEnd d) b)
    ∧ (∀ d a b : ℚ, 0 ≤ maxEnd d →
        0 ≤ (pgRegionChanged d a b).start ∧ (pgRegionChanged d a b).start ≤ maxEnd d
        ∧ 0 ≤ (pgRegionChanged d a b).stop ∧ (pgRegionChanged d a b).stop ≤ maxEnd d
        ∧ (a ≤ b → (pgRegionChanged d a b).start ≤ (pgRegionChanged d a b).stop))
    ∧ onSelect 12 (-1) 20 = { start := 0, stop := 233/20 }
    ∧ onSelect 12 (1/20) 5 = { start := 0, stop := 5 } := by
  refine ⟨?_, ?_, ?_, ?_, ?_, ?_, ?_⟩
  · intro d
    unfold maxEnd
    ring
  · intro d a b ha
    simp only [onSelect, if_pos ha]
    exact max_self 0
  · intro d a b ha
    simp only [onSelect, if_neg ha]
  · intro d a b
    by_cases hb : b > maxEnd d
    · simp only [onSelect, hb, if_true]
      rw [min_self]
      exact (min_eq_left hb.le).symm
    · simp only [onSelect, hb, if_false]
  · intro d a b hd
    refine ⟨le_max_left _ _, ?_, le_max_left _ _, ?_, ?_⟩
    · exact max_le hd (min_le_right _ _)
    · exact max_le hd (min_le_right _ _)
    · intro hab
      exact max_le_max le_rfl (min_le_min hab le_rfl)
  · norm_num [onSelect, maxEnd, min_def, max_def]
  · norm_num [onSelect, maxEnd, min_def, max_def]

/-- C7 witness: the snap branch applied to the scenario start `0.05`. -/
theorem c7_witness : (onSelect 12 (1/20) 5).start = 0 :=
  c7_amended_region_edits.2.1 12 (1/20) 5 (by norm_num)

/-! ### C8 -/

/-- C8 counterexample: with analysis arrays loaded but no voiced sample,
`reset_y_axis` takes `np.max` of an empty selection, which raises (modelled
`none`) instead of producing the claimed default `500`. -/
theorem c8_counterexample :
    resetYAxis (some ([100], [false])) = none
    ∧ resetYAxis (some ([100], [false])) ≠ some 500 := by
  constructor
  · rfl
  · intro h
    exact Option.noConfusion h

/-- C8 amended: when the voiced selection is nonempty with maximum `m`, the
resting scale is `ceil(m / 50) * 50` clamped to `[1, 1000]`; the default
`500` applies only when no analysis arrays are loaded; when arrays are
loaded but contain no voiced sample, the computation fails (`np.max` of an
empty array) rather than yielding `500`. -/
theorem c8_amended_y_axis :
    (∀ (pitch : List ℚ) (voiced : List Bool) (m : ℚ),
        (voicedVals pitch voiced).max? = some m →
        resetYAxis (some (pitch, voiced)) = some (max 1 (min 1000 (⌈m / 50⌉ * 50))))
    ∧ resetYAxis none = some 500
    ∧ (∀ (pitch : List ℚ) (voiced : List Bool),
        voicedVals pitch voiced = [] → resetYAxis (some (pitch, voiced)) = none) := by
  refine ⟨?_, rfl, ?_⟩
  · intro p v m h
    simp only [resetYAxis]
    rw [h]
  · intro p v h
    simp only [resetYAxis]
    rw [h]
    rfl

/-- C8 witness: a single voiced sample at `237` Hz yields the scale `250`. -/
theorem c8_witness : resetYAxis (some ([237], [true])) = some 250 := by
  have h := c8_amended_y_axis.1 [237] [true] 237 rfl
  have hc : (⌈(237 : ℚ) / 50⌉ : ℤ) = 5 := by norm_num [Int.ceil_eq_iff]
  rw [h, hc]
  norm_num [min_def, max_def]

/-! ### C3 -/

/-- The rendering scan equals the spec-side maximal runs filtered to length
at least two, for both scanner states (the open-run state only matters on
nonempty remainders). -/
theorem segScan_eq_filter :
    ∀ l : List Bool,
      (∀ i, segScan l i none =
          (specRunsAux l i none).filter (fun p => decide (1 < p.2 - p.1)))
      ∧ (l ≠ [] → ∀ i s, segScan l i (some s) =
          (specRunsAux l i (some s)).filter (fun p => decide (1 < p.2 - p.1))) := by
  intro l
  induction l with
  | nil => exact ⟨fun i => rfl, fun h => absurd rfl h⟩
  | cons b rest ih =>
      cases rest with
      | nil =>
          constructor
          · intro i
            cases b with
            | true => simp [segScan, specRunsAux, Nat.add_sub_cancel_left]
            | false => simp [segScan, specRunsAux]
          · intro _ i s
            cases b with
            | true =>
                by_cases h : 1 < i + 1 - s
                · simp [segScan, specRunsAux, h]
                · simp [segScan, specRunsAux, h]
            | false =>
                by_cases h : 1 < i - s
                · simp [segScan, specRunsAux, h]
                · simp [segScan, specRunsAux, h]
      | cons c rest2 =>
          have ihn := ih.1
          have ihs := ih.2 (by simp)
          constructor
          · intro i
            cases b with
            | true => simpa [segScan, specRunsAux] using ihs (i + 1) i
            | false => simpa [segScan, specRunsAux] using ihn (i + 1)
          · intro _ i s
            cases b with
            | true => simpa [segScan, specRunsAux] using ihs (i + 1) s
            | false =>
                by_cases h : 1 < i - s
                · simp [segScan, specRunsAux, List.filter_cons, h, ihn (i + 1)]
                · simp [segScan, specRunsAux, List.filter_cons, h, ihn (i + 1)]

/-- Every run produced by the spec-side scanner covers only voiced samples
(relative to the remaining list), and its start is bounded below by the scan
position (or equals the open-run start). -/
theorem specRunsAux_mem :
    ∀ (l : List Bool) (i : ℕ) (st : Option ℕ) (p : ℕ × ℕ),
      p ∈ specRunsAux l i st →
      (∀ j, i ≤ j → p.1 ≤ j → j < p.2 → l.getD (j - i) false = true)
      ∧ (st = none → i ≤ p.1)
      ∧ (∀ s, st = some s → (p.1 = s ∨ i ≤ p.1)) := by
  intro l
  induction l with
  | nil =>
      intro i st p hp
      cases st with
      | none => simp [specRunsAux] at hp
      | some s =>
          simp [specRunsAux] at hp
          subst hp
          refine ⟨?_, fun h => by simp at h, ?_⟩
          · intro j h1 h2 h3
            exact absurd (Nat.lt_of_le_of_lt h1 h3) (Nat.lt_irrefl i)
          · intro s2 hs2
            exact Or.inl (Option.some.inj hs2)
  | cons b rest ih =>
      intro i st p hp
      cases st with
      | none =>
          cases hb : b with
          | true =>
              rw [hb] at hp
              obtain ⟨h1, _, h2s⟩ := ih (i + 1) (some i) p hp
              have hlow : i ≤ p.1 := by
                rcases h2s i rfl with he | hge
                · omega
                · omega
              refine ⟨?_, fun _ => hlow, fun s2 hs2 => by simp at hs2⟩
              intro j hj hpj hj2
              rcases Nat.eq_or_lt_of_le hj with he | hlt
              · subst he
                simp [hb]
              · have hshift : j - i = (j - (i + 1)) + 1 := by omega
                rw [hshift, List.getD_cons_succ]
                exact h1 j hlt hpj hj2
          | false =>
              rw [hb] at hp
              obtain ⟨h1, h2n, _⟩ := ih (i + 1) none p hp
              have hlow : i + 1 ≤ p.1 := h2n rfl
              refine ⟨?_, fun _ => by omega, fun s2 hs2 => by simp at hs2⟩
              intro j hj hpj hj2
              rcases Nat.eq_or_lt_of_le hj with he | hlt
              · subst he
                exact absurd hpj (by omega)
              · have hshift : j - i = (j - (i + 1)) + 1 := by omega
                rw [hshift, List.getD_cons_succ]
                exact h1 j hlt hpj hj2
      | some s =>
          cases hb : b with
          | true =>
              rw [hb] at hp
              obtain ⟨h1, _, h2s⟩ := ih (i + 1) (some s) p hp
              refine ⟨?_, fun h => by simp at h, ?_⟩
              · intro j hj hpj hj2
                rcases Nat.eq_or_lt_of_le hj with he | hlt
                · subst he
                  simp [hb]
                · have hshift : j - i = (j - (i + 1)) + 1 := by omega
                  rw [hshift, List.getD_cons_succ]
                  exact h1 j hlt hpj hj2
              · intro s2 hs2
                have hss : s = s2 := Option.some.inj hs2
                subst hss
                rcases h2s s rfl with he | hge
                · exact Or.inl he
                · exact Or.inr (by omega)
          | false =>
              rw [hb] at hp
              have hp1 : p = (s, i) ∨ p ∈ specRunsAux rest (i + 1) none :=
                List.mem_cons.mp hp
              rcases hp1 with he | hp2
              · subst he
                refine ⟨?_, fun h => by simp at h, ?_⟩
                · intro j hj hpj hj2
                  exact absurd (Nat.lt_of_le_of_lt hj hj2) (Nat.lt_irrefl i)
                · intro s2 hs2
                  exact Or.inl (Option.some.inj hs2)
              · obtain ⟨h1, h2n, _⟩ := ih (i + 1) none p hp2
                have hlow : i + 1 ≤ p.1 := h2n rfl
                refine ⟨?_, fun h => by simp at h, fun s2 hs2 => Or.inr (by omega)⟩
                intro j hj hpj hj2
                rcases Nat.eq_or_lt_of_le hj with he | hlt
                · subst he
                  exact absurd hpj (by omega)
                · have hshift : j - i = (j - (i + 1)) + 1 := by omega
                  rw [hshift, List.getD_cons_succ]
                  exact h1 j hlt hpj hj2

/-- The spec-side runs are emitted in left-to-right order: every run ends at
or before the start of every later run. -/
theorem specRunsAux_pairwise :
    ∀ (l : List Bool) (i : ℕ) (st : Option ℕ),
      List.Pairwise (fun p q : ℕ × ℕ => p.2 ≤ q.1) (specRunsAux l i st) := by
  intro l
  induction l with
  | nil =>
      intro i st
      cases st <;> simp [specRunsAux]
  | cons b rest ih =>
      intro i st
      cases st with
      | none =>
          cases hb : b with
          | true => simpa [specRunsAux] using ih (i + 1) (some i)
          | false => simpa [specRunsAux] using ih (i + 1) none
      | some s =>
          cases hb : b with
          | true => simpa [specRunsAux] using ih (i + 1) (some s)
          | false =>
              simp only [specRunsAux, if_false]
              refine List.pairwise_cons.mpr ⟨?_, ih (i + 1) none⟩
              intro q hq
              have hlow := (specRunsAux_mem rest (i + 1) none q hq).2.1 rfl
              show i ≤ q.1
              omega

/-- C3: the segmentation emits exactly the maximal voiced runs of length at
least two (so singleton voiced runs are dropped), as half-open index ranges;
every emitted range covers only voiced positions, the ranges are in
left-to-right order, and empty input yields no segments. -/
theorem c3_voiced_segmentation :
    (∀ v : List Bool,
        nativeSegments v =
          (specMaximalRuns v).filter (fun p => decide (1 < p.2 - p.1)))
    ∧ (∀ (v : List Bool) (p : ℕ × ℕ), p ∈ nativeSegments v →
        2 ≤ p.2 - p.1 ∧ ∀ j, p.1 ≤ j → j < p.2 → v.getD j false = true)
    ∧ (∀ v : List Bool,
        List.Pairwise (fun p q : ℕ × ℕ => p.2 ≤ q.1) (nativeSegments v))
    ∧ nativeSegments [] = [] := by
  have hfil : ∀ v : List Bool,
      nativeSegments v =
        (specMaximalRuns v).filter (fun p => decide (1 < p.2 - p.1)) :=
    fun v => (segScan_eq_filter v).1 0
  refine ⟨hfil, ?_, ?_, rfl⟩
  · intro v p hp
    rw [hfil] at hp
    have hmem := (List.mem_filter.mp hp).1
    have hlen : decide (1 < p.2 - p.1) = true := (List.mem_filter.mp hp).2
    constructor
    · have := of_decide_eq_true hlen
      omega
    · intro j h1 h2
      have h := (specRunsAux_mem v 0 none p hmem).1 j (Nat.zero_le j) h1 h2
      simpa using h
  · intro v
    rw [hfil]
    exact List.Pairwise.filter _ (specRunsAux_pairwise v 0 none)

/-- C3 witness: for `[true, true, false]` the scan emits the run `[0, 2)`,
whose interior position `1` is voiced. -/
theorem c3_witness :
    ((0, 2) : ℕ × ℕ) ∈ nativeSegments [true, true, false]
    ∧ [true, true, false].getD 1 false = true :=
  ⟨by decide,
    (c3_voiced_segmentation.2.1 [true, true, false] (0, 2) (by decide)).2 1
      (by decide) (by decide)⟩
